import Mathlib

/- Verification of the rcproxy request-forwarding engine against its
   natural-language specification.

   The Go sources are shallowly embedded: byte slices become lists of
   characters, pointer-linked queues become Lean lists (head of the list =
   head of the queue, i.e. the oldest element), mutation becomes explicit
   state passing, and the machine integer arithmetic of the length parser
   is modelled with explicit two-complement wrapping at 64 bits (the
   supported build targets are 64-bit platforms).  Each definition carries
   a comment naming the Go function it embeds. -/

-- ================= shared byte-level basics =================

/-- Byte strings of the wire protocol; Go byte slices are embedded as
lists of characters (every byte of interest is ASCII). -/
abbrev Bytes := List Char

/-- Convenience conversion from a Lean string literal to wire bytes. -/
def bstr (s : String) : Bytes := s.data

/-- Two-complement wrapping of an unbounded integer to a signed 64-bit
machine integer, i.e. the semantics of Go `int` arithmetic on the 64-bit
targets this code builds for.  The constants are 2^63 and 2^64. -/
def wrap64 (x : Int) : Int :=
  (x + 9223372036854775808) % 18446744073709551616 - 9223372036854775808

/-- Errors of the codec layer (package `codec` plus the malformed-length
error allocated inside `parseLen` and `pkg/errors.ErrIncompletePacket`).
Distinct Go error values become distinct constructors. -/
inductive CErr where
  | emptyLine
  | shortLine
  | crNotFound
  | lfNotFound
  | badLine
  | invalidResp
  | malformedLength
  | incompletePacket
  | fuelExhausted
  deriving DecidableEq, Repr

/-- True for an ASCII decimal digit, the test `b < '0' || b > '9'`
negated. -/
def isDigitByte (b : Char) : Bool := !(decide (b < '0') || decide ('9' < b))

/-- Loop body of `parseLen` (src/unnamed/part_004): `n *= 10`, digit
check, `n += int(b - '0')`, all in wrapping machine arithmetic. -/
def parseLenLoop : Int → Bytes → Int × Option CErr
  | n, [] => (n, none)
  | n, b :: p =>
    let n1 := wrap64 (n * 10)
    if b < '0' ∨ '9' < b then (-1, some .invalidResp)
    else parseLenLoop (wrap64 (n1 + ((b.toNat : Int) - 48))) p

/-- `parseLen` (src/unnamed/part_004): accepts exactly `-1` or a run of
decimal digits; returns the pair (value, error) exactly as the Go
function does. -/
def parseLen (p : Bytes) : Int × Option CErr :=
  if p.length < 1 then (-1, some .malformedLength)
  else if p = ['-', '1'] then (-1, none)
  else parseLenLoop 0 p

/-- The exact decimal value of a digit string extending an accumulator,
without any wrapping; used to state what `parseLen` computes. -/
def digitsVal : Int → Bytes → Int
  | n, [] => n
  | n, b :: p => digitsVal (n * 10 + ((b.toNat : Int) - 48)) p

-- ================= codec.Buffer (src/core/codec/buff.go) =================

/-- In-place cursor over a borrowed byte slice (codec.Buffer). -/
structure Buffer where
  buf : Bytes
  r : Nat
  deriving DecidableEq, Repr

/-- `codec.NewBuffer`. -/
def Buffer.new (bs : Bytes) : Buffer := ⟨bs, 0⟩

/-- `Buffer.leftSize`: number of remaining unread bytes. -/
def Buffer.leftSize (b : Buffer) : Nat := b.buf.length - b.r

/-- `Buffer.ReadN`: advances the cursor by `n` bytes and returns them;
fails with EmptyLine when nothing is left and ShortLine when fewer than
`n` bytes remain (the Go comment about not moving `r` is wrong: the
source does advance it). -/
def Buffer.readN (b : Buffer) (n : Nat) : (Bytes × Option CErr) × Buffer :=
  if b.leftSize < 1 then (([], some .emptyLine), b)
  else if n > b.leftSize then (([], some .shortLine), b)
  else (((b.buf.drop b.r).take n, none), ⟨b.buf, b.r + n⟩)

/-- `Buffer.ReadLine`: finds the first LF, consumes through it, then
validates the line (at least one byte plus CRLF, CR present); note the
Go code consumes the bytes before the `idx < 2` validation, which this
embedding reproduces. -/
def Buffer.readLine (b : Buffer) : (Bytes × Option CErr) × Buffer :=
  if b.leftSize < 1 then (([], some .emptyLine), b)
  else
    match (b.buf.drop b.r).findIdx? (fun c => c = '\n') with
    | none => (([], some .lfNotFound), b)
    | some idx =>
      let line := (b.buf.drop b.r).take (idx + 1)
      let b1 : Buffer := ⟨b.buf, b.r + idx + 1⟩
      if idx < 2 then (([], some .emptyLine), b1)
      else if line.getD (idx - 1) ' ' ≠ '\r' then (([], some .crNotFound), b1)
      else ((line.take (idx - 1), none), b1)

-- ========== shard codec reply reader (src/unnamed/part_006) ==========

/-- Reply and request classification, the subset of `codec.Command`
(src/core/codec/commands.go) exercised by the embedded functions. -/
inductive Command where
  | UNKNOWN
  | RspOk
  | RspPong
  | RspStatus
  | RspInteger
  | RspNeedAuth
  | RspNeedNtAuth
  | RspAuthFailed
  | RspError
  | RspMoved
  | RspAsk
  | RspBulk
  | RspMultibulk
  deriving DecidableEq, Repr

/-- Classification of a `-` error line inside `SRespCodec.readReply`:
the chain of `strings.HasPrefix` tests in source order. -/
def classifyErrLine (line : Bytes) : Command :=
  if (bstr "-NOAUTH Authentication required").isPrefixOf line then .RspNeedAuth
  else if (bstr "-ERR invalid password").isPrefixOf line then .RspAuthFailed
  else if (bstr "-ERR Client sent AUTH, but no password is set").isPrefixOf line then .RspNeedNtAuth
  else if (bstr "-ERR AUTH <password> called without any password configured for the default user.").isPrefixOf line then .RspNeedNtAuth
  else if (bstr "-MOVED").isPrefixOf line then .RspMoved
  else if (bstr "-ASK").isPrefixOf line then .RspAsk
  else .RspError

/-- The `for i := 0; i < n; i++` loop of the `*` branch of
`SRespCodec.readReply`, parameterized by the reader for one sub-reply:
reads `k` sub-replies, stopping at the first error. -/
def readReplyIter (rd : Buffer → (Command × Option CErr) × Buffer) :
    Nat → Buffer → Option CErr × Buffer
  | 0, buf => (none, buf)
  | k + 1, buf =>
    match rd buf with
    | ((_, some e), buf1) => (some e, buf1)
    | ((_, none), buf1) => readReplyIter rd k buf1

/-- `SRespCodec.readReply` (src/unnamed/part_006 lines 111-180), the
recursive top-level RESP reply reader, with an explicit fuel argument
bounding the recursion depth (every recursive call consumes at least one
byte, so fuel `b.leftSize + 1` can never run out; theorems only evaluate
it at concrete inputs). -/
def readReplyF : Nat → Buffer → (Command × Option CErr) × Buffer
  | 0, buf => ((.UNKNOWN, some .fuelExhausted), buf)
  | fuel + 1, buf =>
    match buf.readLine with
    | ((_, some e), buf1) => ((.UNKNOWN, some e), buf1)
    | ((line, none), buf1) =>
      match line with
      | [] => ((.UNKNOWN, some .badLine), buf1)
      | c :: rest =>
        if c = '+' then
          if (bstr "+OK").isPrefixOf line then ((.RspOk, none), buf1)
          else if (bstr "+PONG").isPrefixOf line then ((.RspPong, none), buf1)
          else ((.RspStatus, none), buf1)
        else if c = ':' then ((.RspInteger, none), buf1)
        else if c = '-' then ((classifyErrLine line, none), buf1)
        else if c = '$' then
          match parseLen rest with
          | (_, some e) => ((.UNKNOWN, some e), buf1)
          | (n, none) =>
            if n < 0 then ((.RspBulk, none), buf1)
            else
              match buf1.readN n.toNat with
              | ((_, some e), buf2) => ((.UNKNOWN, some e), buf2)
              | ((_, none), buf2) =>
                match buf2.readN 2 with
                | ((_, some e), buf3) => ((.UNKNOWN, some e), buf3)
                | ((crlf, none), buf3) =>
                  if crlf.getD 0 ' ' ≠ '\r' ∨ crlf.getD 1 ' ' ≠ '\n'
                  then ((.UNKNOWN, some .invalidResp), buf3)
                  else ((.RspBulk, none), buf3)
        else if c = '*' then
          match parseLen rest with
          | (n, e) =>
            if n < 0 ∨ e.isSome then ((.UNKNOWN, e), buf1)
            else
              match readReplyIter (readReplyF fuel) n.toNat buf1 with
              | (none, buf2) => ((.RspMultibulk, none), buf2)
              | (some e2, buf2) => ((.UNKNOWN, some e2), buf2)
        else ((.UNKNOWN, some .invalidResp), buf1)

/-- Top-level entry for reading one shard reply from raw bytes: builds
the buffer and supplies sufficient fuel, mirroring
the call `rc.readReply(buf)` inside `SRespCodec.Decode`. -/
def readReply (bs : Bytes) : (Command × Option CErr) × Buffer :=
  readReplyF (bs.length + 1) (Buffer.new bs)

-- ========== client codec header validation (C5) ==========

/-- Result of the array-header validation step of `CRespCodec.Decode`
(src/unnamed/part_006, second half, lines 338-369): either the header
`*N` was accepted and body parsing proceeds with `n` elements, or the
decode returns a nil message together with the recorded error, which in
the source can be nil itself (the `n < 1` branch returns `nil, err` with
`err` untouched). -/
inductive CDecodeHead where
  | proceed (n : Int) (buf : Buffer)
  | fail (e : Option CErr)
  deriving DecidableEq, Repr

/-- The header validation of `CRespCodec.Decode`: empty input and line
errors map to the incomplete-packet error, a leading byte other than
the asterisk fails with the invalid-resp error, and a parsed length is
required to be at least 1. -/
def cRespDecodeHeader (bs : Bytes) : CDecodeHead :=
  let buf := Buffer.new bs
  if bs.length < 1 then .fail (some .incompletePacket)
  else
    match buf.readLine with
    | ((_, some _), _) => .fail (some .incompletePacket)
    | ((line, none), buf1) =>
      match line with
      | c :: rest =>
        if c = '*' then
          match parseLen rest with
          | (n, e) => if n < 1 ∨ e.isSome then .fail e else .proceed n buf1
        else .fail (some .invalidResp)
      | [] => .fail (some .invalidResp)

/-- How `eventloop.cread` (src/unnamed/part_005 lines 146-160) dispatches
on the outcome of the client decode: an invalid-resp error closes the
client, any other error waits for more bytes, and a nil error hands the
returned message (nil in the `fail none` case) to `OnCReact`. -/
inductive CreadOutcome where
  | closeClient
  | waitMore
  | reactNilMsg
  | parseBody (n : Int)
  deriving DecidableEq, Repr

/-- Composition of the header validation with the `eventloop.cread`
dispatch on its error. -/
def creadHeader (bs : Bytes) : CreadOutcome :=
  match cRespDecodeHeader bs with
  | .fail (some .invalidResp) => .closeClient
  | .fail (some _) => .waitMore
  | .fail none => .reactNilMsg
  | .proceed n _ => .parseBody n

-- ========== client reply ordering (C1) ==========

/-- The fields of a `core.Msg` relevant to client reply ordering: the
monotone id, the `Done` flag and the aggregated reply bytes. -/
structure CMsg where
  id : Nat
  done : Bool
  rsp : Bytes
  deriving DecidableEq, Repr

/-- `MsgQueue.AllDone` (src/core/message.go lines 351-360): walks the
queue from the head and reports whether every queued message is done. -/
def allDone (q : List CMsg) : Bool := q.all (fun m => m.done)

/-- The effect on the queue of a shard-side completion marking the
message with the given id done (`msg.Done = true` in the shard codec
aggregation paths). -/
def markMsgDone (i : Nat) (q : List CMsg) : List CMsg :=
  q.map (fun m => if m.id = i then { m with done := true } else m)

/-- One client connection as seen by the reply-ordering logic: the
`in_msg_queue` (oldest message first, as `MsgQueue` stores it) and the
ghost list of messages whose reply bytes have been written back, in
write order. -/
structure ClientState where
  queue : List CMsg
  written : List CMsg
  deriving DecidableEq, Repr

/-- Events touching one client connection, in the order the event loop
fires them: `arrive` is `EnqueueInMsg` after a successful client decode
(`MsgQueue.PushTail`), `complete` is a shard reply marking a message
done, and `flush` is the reply-writing tail of `eventloop.sread`
(src/unnamed/part_005 lines 236-282): replies are written only when the
queue is non-empty and `AllDone` holds, and then the whole queue is
written from head (oldest) to tail and released. -/
inductive CEvent where
  | arrive (m : CMsg)
  | complete (i : Nat)
  | flush
  deriving DecidableEq, Repr

/-- Transition function of the client reply-ordering model. -/
def cstep (s : ClientState) : CEvent → ClientState
  | .arrive m => { s with queue := s.queue ++ [m] }
  | .complete i => { s with queue := markMsgDone i s.queue }
  | .flush =>
    if s.queue ≠ [] ∧ allDone s.queue then
      { queue := [], written := s.written ++ s.queue }
    else s

/-- Run of the client model from a given state. -/
def crunFrom (s : ClientState) (evs : List CEvent) : ClientState :=
  evs.foldl cstep s

/-- Run of the client model from the empty connection state. -/
def crun (evs : List CEvent) : ClientState := crunFrom ⟨[], []⟩ evs

/-- The ids of the messages of a trace in arrival (send) order. -/
def arrivalIds (evs : List CEvent) : List Nat :=
  evs.filterMap (fun e => match e with | .arrive m => some m.id | _ => none)

/-- Ids of a message list. -/
def msgIds (q : List CMsg) : List Nat := q.map (fun m => m.id)

-- ========== shard FIFO fragment matching (C2) ==========

/-- The fields of a `core.Frag` relevant to FIFO matching on a shard
connection. -/
structure SFrag where
  id : Nat
  req : Bytes
  deriving DecidableEq, Repr

/-- One shard connection as seen by the fragment queues, with two ghost
histories: `sent` records every fragment moved onto the in-flight queue
(equivalently, whose request bytes were handed to `writev`), in order;
`matched` records each decoded reply paired with the fragment dequeued
for it, in order. -/
structure ShardState where
  outQ : List SFrag
  inQ : List SFrag
  sent : List SFrag
  matched : List (SFrag × Bytes)
  deriving DecidableEq, Repr

/-- Events on one shard connection: `enq` is `EnqueueOutFrag`
(`FragQueue.PushTail`); `writeSignal` is `conn.handleWriteSignal`
(src/core/connection.go lines 310-333), which drains `out_frag_queue`
from the head, moving every drained fragment to the tail of
`in_frag_queue` and writing the concatenated request bytes; `reply r`
is `SRespCodec.Decode` decoding one top-level reply and dequeuing the
head of `in_frag_queue` for it (an empty queue logs and drops the
reply). -/
inductive SEvent where
  | enq (f : SFrag)
  | writeSignal
  | reply (r : Bytes)
  deriving DecidableEq, Repr

/-- Transition function of the shard FIFO model. -/
def sstep (s : ShardState) : SEvent → ShardState
  | .enq f => { s with outQ := s.outQ ++ [f] }
  | .writeSignal =>
    { s with outQ := [], inQ := s.inQ ++ s.outQ, sent := s.sent ++ s.outQ }
  | .reply r =>
    match s.inQ with
    | [] => s
    | f :: rest => { s with inQ := rest, matched := s.matched ++ [(f, r)] }

/-- Run of the shard model from a given state. -/
def srunFrom (s : ShardState) (evs : List SEvent) : ShardState :=
  evs.foldl sstep s

/-- Run of the shard model from the freshly opened connection state. -/
def srun (evs : List SEvent) : ShardState := srunFrom ⟨[], [], [], []⟩ evs

-- ========== association-list helpers (Go maps) ==========

/-- Lookup in an association list, embedding a Go map read. -/
def alistLookup {α β : Type} [DecidableEq α] : List (α × β) → α → Option β
  | [], _ => none
  | (a, b) :: t, k => if a = k then some b else alistLookup t k

/-- Insert or replace in an association list, embedding a Go map write. -/
def alistInsert {α β : Type} [DecidableEq α] : List (α × β) → α → β → List (α × β)
  | [], k, v => [(k, v)]
  | (a, b) :: t, k, v => if a = k then (k, v) :: t else (a, b) :: alistInsert t k v

-- ========== MOVED/ASK redirection (C3) ==========

/-- The fields of a `core.Frag` relevant to redirection: id, the parent
message back-pointer (`Frag.Peer`), the reply buffer and the done flag. -/
structure MFrag where
  id : Nat
  peerId : Nat
  rspBody : Bytes
  done : Bool
  deriving DecidableEq, Repr

/-- The fields of a `core.Msg` relevant to redirection: id, the count of
completed fragments, the aggregate reply and the done flag. -/
structure MMsg where
  id : Nat
  fragDoneNumber : Nat
  rspBody : Bytes
  done : Bool
  deriving DecidableEq, Repr

/-- The address part of `Frag.parseMovedOrAsk` (src/core/message.go
lines 269-290): strips the `-MOVED ` / `-ASK ` head and the trailing
CRLF, splits on spaces, and returns the second field; the slot part
feeds only the fd-to-slot bookkeeping, which is not modelled. -/
def parseMovedAddr (t : Command) (rsp : Bytes) : String :=
  if rsp.length < 10 then "" else
  match (match t with | .RspMoved => some 7 | .RspAsk => some 5 | _ => none) with
  | none => ""
  | some i =>
    let l := ((rsp.take (rsp.length - 2)).drop i).splitOn ' '
    if l.length < 2 then "" else String.mk (l.getD 1 [])

/-- `listenServer.OnMoved` (src/unnamed/part_003 lines 189-214): clears
the reply buffer of the fragment, looks the redirect address up in the
pool table, obtains a connection from that pool (`dialOk` stands for
`pool.Get()` succeeding) and re-enqueues the same fragment object on
the out queue of that connection; on a missing pool or a failed dial the
function just returns.  Pools are modelled by the out queue of their
single connection. -/
def onMoved (addr : String) (f : MFrag) (pools : List (String × List MFrag))
    (dialOk : Bool) : MFrag × List (String × List MFrag) :=
  let f1 := { f with rspBody := [] }
  match alistLookup pools addr with
  | none => (f1, pools)
  | some q => if dialOk then (f1, alistInsert pools addr (q ++ [f1])) else (f1, pools)

/-- Result of dispatching one decoded shard reply for a client-owned
fragment. -/
structure DispatchResult where
  frag : MFrag
  msg : MMsg
  pools : List (String × List MFrag)
  deriving DecidableEq, Repr

/-- The dispatch tail of `conn.sread` (src/core/connection.go lines
156-219) composed with the `MovedOrAsk` case of `eventloop.sread`
(src/unnamed/part_005 lines 186-212), for a fragment with owner and
peer: a MOVED/ASK reply goes to `OnMoved` before the completion count
is touched; an already-done fragment yields `Continue`; otherwise the
completion count is incremented and the reply is aggregated (shown here
for the single-fragment default kind, `SRespCodec.Default`; the
multi-fragment kinds are modelled in the MGET section). -/
def sreadDispatch (rtype : Command) (f : MFrag) (msg : MMsg)
    (pools : List (String × List MFrag)) (dialOk : Bool) : DispatchResult :=
  if rtype = .RspMoved ∨ rtype = .RspAsk then
    let p := onMoved (parseMovedAddr rtype f.rspBody) f pools dialOk
    ⟨p.1, msg, p.2⟩
  else if f.done then ⟨f, msg, pools⟩
  else
    let msg1 := { msg with fragDoneNumber := msg.fragDoneNumber + 1 }
    ⟨{ f with done := true }, { msg1 with rspBody := f.rspBody, done := true }, pools⟩

-- ========== replica routing (C4) and pool banning (C8) ==========

/-- The health-banning fields of a `core.Pool` (src/core/redis_pool.go):
the offline flag, the lift-ban timestamp (milliseconds) and the
exponential ban order. -/
structure RPool where
  autoBanFlag : Bool
  liftBanTime : Int
  liftBanOrder : Nat
  deriving DecidableEq, Repr

/-- The replica-selection loop of `listenServer.route` (src/unnamed/
part_003 lines 147-186), iterating over the slaves of the slot
replicaset of a read request: a missing pool is skipped; a pool with the offline flag set
whose lift-ban time is already in the past is skipped; otherwise the
flag is cleared and the address appended to `liveSlaves`; as soon as
`liveSlaves` is non-empty the loop returns the element indexed by the
random draw (modelled by `r` modulo the list length).  Falls back to
the master address after the loop. -/
def routeLoop (now : Int) (r : Nat) (masterAddr : String)
    (pools : List (String × RPool)) (live : List String) :
    List String → (String × Bool) × List (String × RPool)
  | [] => ((masterAddr, false), pools)
  | v :: vs =>
    match alistLookup pools v with
    | none => routeLoop now r masterAddr pools live vs
    | some p =>
      if p.autoBanFlag ∧ p.liftBanTime < now then
        routeLoop now r masterAddr pools live vs
      else
        let pools1 := alistInsert pools v { p with autoBanFlag := false }
        let live1 := live ++ [v]
        ((live1.getD (r % live1.length) masterAddr, true), pools1)

/-- `listenServer.route`: replicas disabled or a write command go to the
master; otherwise the replica-selection loop runs with an empty
`liveSlaves` accumulator. -/
def route (disableSlave isWrite : Bool) (masterAddr : String)
    (slaves : List String) (pools : List (String × RPool)) (now : Int)
    (r : Nat) : (String × Bool) × List (String × RPool) :=
  if disableSlave then ((masterAddr, false), pools)
  else if isWrite then ((masterAddr, false), pools)
  else routeLoop now r masterAddr pools [] slaves

/-- The liveness test of the specification text: a replica is live if
the auto-ban flag of its pool is false or its ban-until has elapsed.  This
definition follows the words of the spec, not the source, and exists to
be compared against `route`. -/
def liveSpec (now : Int) (pools : List (String × RPool)) (v : String) : Bool :=
  match alistLookup pools v with
  | none => false
  | some p => !p.autoBanFlag || decide (p.liftBanTime < now)

/-- The routing policy of the specification text: collect all live
replicas, then pick one of them by the random draw; master if none.
This definition follows the words of the spec, not the source. -/
def routeSpec (masterAddr : String) (slaves : List String)
    (pools : List (String × RPool)) (now : Int) (r : Nat) : String × Bool :=
  let live := slaves.filter (liveSpec now pools)
  if live.isEmpty then (masterAddr, false)
  else (live.getD (r % live.length) masterAddr, true)

/-- The liveness test actually implemented by the source loop: the pool
exists and either is not auto-banned, or is auto-banned with a lift-ban
time that has not yet passed. -/
def liveCode (now : Int) (pools : List (String × RPool)) (v : String) : Bool :=
  match alistLookup pools v with
  | none => false
  | some p => !p.autoBanFlag || !decide (p.liftBanTime < now)

/-- `listenServer.getConn` on the dial-failure branch (src/unnamed/
part_003 lines 128-137): the lift-ban time is set from the current
order, then the order is incremented with a cap of 5, then the auto-ban
flag is raised.  `base` is the configured server retry timeout in
milliseconds. -/
def getConnFail (p : RPool) (now base : Int) : RPool :=
  { autoBanFlag := true
  , liftBanTime := now + base * 2 ^ p.liftBanOrder
  , liftBanOrder := if p.liftBanOrder ≥ 5 then 5 else p.liftBanOrder + 1 }

/-- `listenServer.getConn` on the success branch (line 139): the order
is reset to zero. -/
def getConnSuccess (p : RPool) : RPool := { p with liftBanOrder := 0 }

/-- The probe-failure branch of `Pool.monitor` (src/core/redis_pool.go
lines 185-186, reached after both detect attempts of a tick fail): the
lift-ban time is set to sixty seconds from now and the auto-ban flag is
raised; the order is not touched. -/
def monitorProbeFail (p : RPool) (now : Int) : RPool :=
  { p with liftBanTime := now + 60000, autoBanFlag := true }

/-- The probe-success branch of `Pool.monitor` (lines 166-171): the
order is reset and the auto-ban flag cleared. -/
def monitorProbeSuccess (p : RPool) : RPool :=
  { p with liftBanOrder := 0, autoBanFlag := false }

/-- The events that drive the ban state of one pool. -/
inductive PoolEvent where
  | dialFail (now base : Int)
  | dialOk
  | probeFail (now : Int)
  | probeOk
  deriving DecidableEq, Repr

/-- Transition function of the pool ban state machine. -/
def poolStep (p : RPool) : PoolEvent → RPool
  | .dialFail now base => getConnFail p now base
  | .dialOk => getConnSuccess p
  | .probeFail now => monitorProbeFail p now
  | .probeOk => monitorProbeSuccess p

-- ========== timeout index keyed by deadline (C9) ==========

/-- The fields of a `core.Frag` relevant to the timeout index: identity,
the deadline, and the owner/peer pointers checked by the push guard. -/
structure TQFrag where
  id : Nat
  timeout : Int
  hasOwner : Bool
  hasPeer : Bool
  deriving DecidableEq, Repr

/-- `Frag.Less` (src/core/message.go lines 292-294): the LLRB ordering
compares deadlines only. -/
def fragLess (f g : TQFrag) : Bool := decide (f.timeout < g.timeout)

/-- Key equality induced by `Frag.Less` inside the LLRB tree: two items
neither of which is less than the other are the same key. -/
def fragKeyEq (f g : TQFrag) : Bool := !fragLess f g && !fragLess g f

/-- `llrb.ReplaceOrInsert` with the `Frag.Less` ordering, modelled from
the documented semantics of the GoLLRB library (a vendored dependency,
not part of this repository): inserting an item replaces the existing
item with the same key, if any.  The tree is modelled as the list of
its items. -/
def replaceOrInsert (f : TQFrag) : List TQFrag → List TQFrag
  | [] => [f]
  | g :: t => if fragKeyEq f g then f :: t else g :: replaceOrInsert f t

/-- `llrb.Delete` with the `Frag.Less` ordering, modelled from the
documented semantics of GoLLRB: removes the item with the same key as
the argument, if any. -/
def deleteByKey (f : TQFrag) : List TQFrag → List TQFrag
  | [] => []
  | g :: t => if fragKeyEq f g then t else g :: deleteByKey f t

/-- `pushToTimeoutQueue` (src/core/message.go lines 296-305): skips
non-positive timeouts and fragments without owner or peer, stamps the
deadline `now + timeout` and calls `ReplaceOrInsert`. -/
def pushToTimeoutQueue (now timeoutMs : Int) (f : TQFrag)
    (t : List TQFrag) : List TQFrag :=
  if timeoutMs ≤ 0 then t
  else if ¬f.hasOwner ∨ ¬f.hasPeer then t
  else replaceOrInsert { f with timeout := now + timeoutMs } t

/-- No two distinct items of the index share a key (equal deadlines). -/
def distinctDeadlines (t : List TQFrag) : Prop :=
  t.Pairwise (fun f g => fragKeyEq f g = false)

-- ========== timeout sweep (C7) ==========

/-- The error line `codec.ErrMsgRequestTimeout`. -/
def timeoutErrLine : Bytes := bstr "-ERR proxy request timeout\r\n"

/-- The fields of a `core.Frag` relevant to the timeout sweep. -/
structure TOFrag where
  id : Nat
  msgId : Nat
  timeout : Int
  done : Bool
  error : Bytes
  deriving DecidableEq, Repr

/-- The fields of a `core.Msg` relevant to the timeout sweep. -/
structure TOMsg where
  id : Nat
  done : Bool
  error : Bytes
  deriving DecidableEq, Repr

/-- The state swept by `eventloop.msgTimeout`: the wall clock, the
timeout index (ids of indexed fragments), the fragment and message
stores (Go heap objects), and the owning client connection of the
fragment under scrutiny (its open flag, written error lines, and
inbound buffer). -/
structure TOState where
  now : Int
  tree : List Nat
  frags : List TOFrag
  msgs : List TOMsg
  clientOpen : Bool
  clientOut : List Bytes
  clientIn : Bytes
  deriving DecidableEq, Repr

/-- The fragments currently sitting in the timeout index. -/
def treeFrags (s : TOState) : List TOFrag :=
  s.frags.filter (fun f => s.tree.contains f.id)

/-- `getFromTimeoutQueue`: the minimum-deadline item of the index
(`llrb.Min`); ties cannot occur in a tree keyed by deadline. -/
def minTimeoutFrag : List TOFrag → Option TOFrag
  | [] => none
  | f :: fs =>
    match minTimeoutFrag fs with
    | none => some f
    | some g => some (if g.timeout < f.timeout then g else f)

/-- The firing body of one `eventloop.msgTimeout` iteration
(src/unnamed/part_005 lines 464-483) for a past-due, not-yet-done
fragment: the entry is removed from the index, every not-yet-done
fragment of the parent message is marked done with the timeout error,
the error field of the parent message is set (its done flag is not
touched), and, if the owning client is still open, the error line is
sent to it and its inbound buffer is discarded (`c.Discard(0)` resets
the whole buffer). -/
def fireTimeout (s : TOState) (f : TOFrag) : TOState :=
  let frags1 := s.frags.map (fun v =>
    if v.msgId = f.msgId ∧ ¬v.done then { v with error := timeoutErrLine, done := true } else v)
  let msgs1 := s.msgs.map (fun m =>
    if m.id = f.msgId then { m with error := timeoutErrLine } else m)
  let s2 := { s with tree := s.tree.erase f.id, frags := frags1, msgs := msgs1 }
  if s2.clientOpen then
    { s2 with clientOut := s2.clientOut ++ [timeoutErrLine], clientIn := [] }
  else s2

/-- The sweep loop of `eventloop.msgTimeout` (src/unnamed/part_005
lines 450-485) with fuel (each iteration removes one index entry, so
`tree.length + 1` suffices): already-done minima are lazily removed; a
minimum that is not yet due stops the sweep; a past-due minimum fires. -/
def msgTimeoutAux : Nat → TOState → TOState
  | 0, s => s
  | fuel + 1, s =>
    match minTimeoutFrag (treeFrags s) with
    | none => s
    | some f =>
      if f.done then msgTimeoutAux fuel { s with tree := s.tree.erase f.id }
      else if s.now < f.timeout then s
      else msgTimeoutAux fuel (fireTimeout s f)

/-- `eventloop.msgTimeout`. -/
def msgTimeout (s : TOState) : TOState := msgTimeoutAux (s.tree.length + 1) s

-- ========== MGET scatter-gather assembly (C6) ==========

/-- One step of the grouping loop of `CRespCodec.Frag1` (src/unnamed/
part_006 lines 416-434): append the key to the group of its slot, creating
the group on first use.  The hash is `hashkit.Hash` (CRC16 over the
hashtag), passed as a parameter since its definition is orthogonal to
the grouping. -/
def groupAdd (g : List (Nat × List String)) (slot : Nat) (k : String) :
    List (Nat × List String) :=
  alistInsert g slot ((alistLookup g slot).getD [] ++ [k])

/-- The grouping of `CRespCodec.Frag1`: walk the client-supplied keys in
order, grouping them by slot while recording the full ordered key list
separately (the key list itself is just the input). -/
def frag1Groups (hash : String → Nat) (keys : List String) :
    List (Nat × List String) :=
  keys.foldl (fun g k => groupAdd g (hash k) k) []

/-- The linear scan of the `MGET` assembler (src/unnamed/part_006 lines
198-206): walk the key group of the slot and its parsed reply list in
parallel and splice the reply at the first index whose key equals the
requested key; no match appends nothing. -/
def scanMatch : List String → List String → String → String
  | v :: vs, r :: rs, k => if v = k then r else scanMatch vs rs k
  | _, _, _ => ""

/-- The reply assembly of `SRespCodec.MGet` (src/unnamed/part_006 lines
192-206) once every fragment of the message is done: emit the array
header sized by the full ordered key list, then, for each key in
client-supplied order, splice the reply found by the linear scan in its
group of its slot (`rsps` maps each slot to the `Rsp` list that
`parseMGet` produced for the fragment of that slot). -/
def mgetAssemble (hash : String → Nat) (keys : List String)
    (groups rsps : List (Nat × List String)) : String :=
  "*" ++ toString keys.length ++ "\r\n" ++
    String.join (keys.map (fun k =>
      scanMatch ((alistLookup groups (hash k)).getD [])
        ((alistLookup rsps (hash k)).getD []) k))

-- ================= theorems =================

theorem alistLookup_insert_self {α β : Type} [DecidableEq α]
    (l : List (α × β)) (k : α) (v : β) :
    alistLookup (alistInsert l k v) k = some v := by
  induction l with
  | nil => simp [alistInsert, alistLookup]
  | cons hd t ih =>
    rcases hd with ⟨a, b⟩
    by_cases h : a = k
    · simp [alistInsert, alistLookup, h]
    · simpa [alistInsert, alistLookup, h] using ih

theorem alistLookup_insert_ne {α β : Type} [DecidableEq α]
    (l : List (α × β)) (k a : α) (v : β) (h : a ≠ k) :
    alistLookup (alistInsert l k v) a = alistLookup l a := by
  have hka : ¬k = a := fun hh => h hh.symm
  induction l with
  | nil => simp [alistInsert, alistLookup, hka]
  | cons hd t ih =>
    rcases hd with ⟨x, y⟩
    by_cases hk : x = k
    · subst hk
      simp [alistInsert, alistLookup, hka]
    · by_cases hx : x = a
      · subst hx
        simp [alistInsert, alistLookup, hk, hka]
      · simp [alistInsert, alistLookup, hk, hx, ih]

/-- C3: when the shard reply to a client-owned fragment is MOVED or ASK
and the pool of the redirect address exists and yields a connection, the
dispatch clears the reply buffer of the fragment while keeping its identity
and message back-pointer, re-enqueues that same fragment at the tail of
the out queue of the redirect pool, leaves every other pool untouched, and
leaves the parent message — its completion count, done flag, and reply
buffer (hence no MOVED/ASK bytes) — exactly as it was. -/
theorem c3_moved_requeue (rtype : Command) (f : MFrag) (msg : MMsg)
    (pools : List (String × List MFrag)) (addr : String)
    (q : List MFrag)
    (hrt : rtype = Command.RspMoved ∨ rtype = Command.RspAsk)
    (haddr : addr = parseMovedAddr rtype f.rspBody)
    (hq : alistLookup pools addr = some q) :
    (sreadDispatch rtype f msg pools true).frag = { f with rspBody := [] } ∧
    (sreadDispatch rtype f msg pools true).msg = msg ∧
    alistLookup (sreadDispatch rtype f msg pools true).pools addr =
      some (q ++ [{ f with rspBody := [] }]) ∧
    ∀ a : String, a ≠ addr →
      alistLookup (sreadDispatch rtype f msg pools true).pools a =
        alistLookup pools a := by
  subst haddr
  rcases hrt with h | h <;> subst h <;>
    simp [sreadDispatch, onMoved, hq, alistLookup_insert_self] <;>
    intro a ha <;> simp [alistLookup_insert_ne _ _ _ _ ha]

/-- Witness for `c3_moved_requeue` at a concrete MOVED reply. -/
theorem c3_moved_requeue_witness :
    (sreadDispatch Command.RspMoved
        ⟨7, 3, bstr "-MOVED 15495 127.0.0.1:8000\r\n", false⟩
        ⟨3, 0, [], false⟩ [("127.0.0.1:8000", [])] true).frag =
      ⟨7, 3, [], false⟩ ∧
    (sreadDispatch Command.RspMoved
        ⟨7, 3, bstr "-MOVED 15495 127.0.0.1:8000\r\n", false⟩
        ⟨3, 0, [], false⟩ [("127.0.0.1:8000", [])] true).msg =
      ⟨3, 0, [], false⟩ ∧
    alistLookup (sreadDispatch Command.RspMoved
        ⟨7, 3, bstr "-MOVED 15495 127.0.0.1:8000\r\n", false⟩
        ⟨3, 0, [], false⟩ [("127.0.0.1:8000", [])] true).pools
        "127.0.0.1:8000" = some [⟨7, 3, [], false⟩] := by
  have h := c3_moved_requeue Command.RspMoved
    ⟨7, 3, bstr "-MOVED 15495 127.0.0.1:8000\r\n", false⟩
    ⟨3, 0, [], false⟩ [("127.0.0.1:8000", [])] "127.0.0.1:8000" []
    (Or.inl rfl) (by decide) (by decide)
  exact ⟨h.1, h.2.1, h.2.2.1⟩

theorem msgIds_markMsgDone (i : Nat) (q : List CMsg) :
    msgIds (markMsgDone i q) = msgIds q := by
  induction q with
  | nil => rfl
  | cons m t ih =>
    by_cases h : m.id = i <;> simp [markMsgDone, msgIds, h] <;>
      simpa [markMsgDone, msgIds] using ih

theorem crunFrom_ids (evs : List CEvent) :
    ∀ s : ClientState,
      msgIds (crunFrom s evs).written ++ msgIds (crunFrom s evs).queue =
        msgIds s.written ++ msgIds s.queue ++ arrivalIds evs := by
  induction evs with
  | nil => intro s; simp [crunFrom, arrivalIds]
  | cons e t ih =>
    intro s
    have hstep := ih (cstep s e)
    have hrun : crunFrom s (e :: t) = crunFrom (cstep s e) t := rfl
    rw [hrun, hstep]
    cases e with
    | arrive m =>
      simp [cstep, arrivalIds, msgIds, List.filterMap_cons]
    | complete i =>
      simp [cstep, arrivalIds, msgIds_markMsgDone, List.filterMap_cons]
    | flush =>
      by_cases h : s.queue ≠ [] ∧ allDone s.queue = true <;>
        simp [cstep, h, arrivalIds, msgIds, List.filterMap_cons, List.append_assoc]

/-- C1: over any trace of message arrivals, out-of-order shard-side
completions, and reply flushes of one client connection, the sequence
of message ids whose replies have been written to the client is a
prefix of the sequence of ids in arrival order, and together with the
ids still queued it is exactly the arrival order — so for every pair of
messages sent one before the other, the reply to the earlier one is
written first.  The flush only fires when `MsgQueue.AllDone` holds over
the whole queue and then writes the queued replies from head (oldest)
to tail. -/
theorem c1_client_reply_order (evs : List CEvent) :
    msgIds (crun evs).written ++ msgIds (crun evs).queue = arrivalIds evs ∧
    msgIds (crun evs).written =
      (arrivalIds evs).take (msgIds (crun evs).written).length := by
  have h := crunFrom_ids evs ⟨[], []⟩
  simp only [msgIds, List.map_nil, List.nil_append] at h
  refine ⟨h, ?_⟩
  rw [← h]
  exact (List.take_left _ _).symm

theorem srunFrom_inv (evs : List SEvent) :
    ∀ s : ShardState,
      s.matched.map Prod.fst ++ s.inQ = s.sent →
        (srunFrom s evs).matched.map Prod.fst ++ (srunFrom s evs).inQ =
          (srunFrom s evs).sent := by
  induction evs with
  | nil => intro s h; simpa [srunFrom] using h
  | cons e t ih =>
    intro s h
    have hrun : srunFrom s (e :: t) = srunFrom (sstep s e) t := rfl
    rw [hrun]
    refine ih (sstep s e) ?_
    cases e with
    | enq f => simpa [sstep] using h
    | writeSignal => simp [sstep, ← List.append_assoc, h]
    | reply r =>
      cases hq : s.inQ with
      | nil => simpa [sstep, hq] using h
      | cons f rest =>
        rw [hq] at h
        simp [sstep, hq, ← h]

/-- C2: over any trace of fragment enqueues, write signals and decoded
replies on one shard connection, the fragments matched to replies (in
decode order) followed by the still-in-flight queue equal exactly the
fragments sent (moved to the in-flight queue by `handleWriteSignal`) in
send order; hence the fragment matched to the i-th decoded reply is the
i-th fragment sent on that stream. -/
theorem c2_shard_fifo_matching (evs : List SEvent) :
    (srun evs).matched.map Prod.fst ++ (srun evs).inQ = (srun evs).sent ∧
    (srun evs).matched.map Prod.fst =
      (srun evs).sent.take (srun evs).matched.length := by
  have h : (srun evs).matched.map Prod.fst ++ (srun evs).inQ = (srun evs).sent :=
    srunFrom_inv evs ⟨[], [], [], []⟩ (by simp)
  refine ⟨h, ?_⟩
  rw [← h]
  have hl : (srun evs).matched.length = ((srun evs).matched.map Prod.fst).length := by
    simp
  rw [hl]
  exact (List.take_left _ _).symm

/-- C4 counterexample: the routing the source implements differs from
the uniformly-random-over-live-replicas policy of the claim at concrete
states.  First state: a single replica whose pool is auto-banned with a
lift-ban time already elapsed — the claim counts it live (un-ban and
include), the code skips it and falls back to the master.  Second
state: two unbanned replicas and random draw 1 — the claim picks the
second replica, the code always returns the first (the random draw only
ever sees a one-element list). -/
theorem c4_route_counterexample :
    ((route false false "m" ["s1"] [("s1", ⟨true, 5, 0⟩)] 10 0).1 = ("m", false) ∧
      routeSpec "m" ["s1"] [("s1", ⟨true, 5, 0⟩)] 10 0 = ("s1", true)) ∧
    ((route false false "m" ["s1", "s2"]
        [("s1", ⟨false, 0, 0⟩), ("s2", ⟨false, 0, 0⟩)] 0 1).1 = ("s1", true) ∧
      routeSpec "m" ["s1", "s2"]
        [("s1", ⟨false, 0, 0⟩), ("s2", ⟨false, 0, 0⟩)] 0 1 = ("s2", true)) := by
  decide

theorem routeLoop_first_live (now : Int) (r : Nat) (masterAddr : String)
    (pools : List (String × RPool)) :
    ∀ slaves : List String,
      (routeLoop now r masterAddr pools [] slaves).1 =
        match slaves.find? (liveCode now pools) with
        | some v => (v, true)
        | none => (masterAddr, false) := by
  intro slaves
  induction slaves with
  | nil => simp [routeLoop]
  | cons v vs ih =>
    cases hp : alistLookup pools v with
    | none =>
      have hlive : liveCode now pools v = false := by simp [liveCode, hp]
      simp [routeLoop, hp, List.find?, hlive, ih]
    | some p =>
      by_cases hb : p.autoBanFlag ∧ p.liftBanTime < now
      · have hlive : liveCode now pools v = false := by
          simp [liveCode, hp, hb.1, hb.2]
        simp [routeLoop, hp, hb, List.find?, hlive, ih]
      · have hlive : liveCode now pools v = true := by
          rcases Decidable.not_and_iff_or_not.mp hb with h | h
          · have hf : p.autoBanFlag = false := by
              revert h; cases p.autoBanFlag <;> simp
            simp [liveCode, hp, hf]
          · simp [liveCode, hp]
            right
            omega
        simp [routeLoop, hp, hb, List.find?, hlive, Nat.mod_one]

/-- C4 amended: with replicas enabled and a read command, the router
returns the first replica in replica-list order whose pool exists and
either is not auto-banned, or is auto-banned with a lift-ban time that
has not yet passed (such a replica is un-banned and used); replicas
whose lift-ban time has already elapsed are skipped; if no replica
qualifies the request goes to the master.  The choice is independent of
the random draw `r`. -/
theorem c4_route_first_live (slaves : List String)
    (pools : List (String × RPool)) (now : Int) (r : Nat)
    (masterAddr : String) :
    (route false false masterAddr slaves pools now r).1 =
      match slaves.find? (liveCode now pools) with
      | some v => (v, true)
      | none => (masterAddr, false) := by
  simpa [route] using routeLoop_first_live now r masterAddr pools slaves

/-- C5: evaluation of the client-codec header validation at the inputs
the claim covers.  A frame whose header parses to N = 0 or N = -1 makes
`CRespCodec.Decode` return a nil message together with a nil error (the
`n < 1` branch returns `nil, err` with `err` still nil), so
`eventloop.cread` neither closes the client nor waits — it hands the
nil message to `OnCReact`, contradicting the claim that such frames
fail with the invalid-resp error and close the client.  A non-asterisk
first byte and a non-numeric length do fail with the invalid-resp error
and close the client, as the claim states for those violations. -/
theorem c5_header_dispatch_eval :
    creadHeader (bstr "*0\r\n") = CreadOutcome.reactNilMsg ∧
    creadHeader (bstr "*-1\r\n") = CreadOutcome.reactNilMsg ∧
    creadHeader (bstr "$3\r\n") = CreadOutcome.closeClient ∧
    creadHeader (bstr "*abc\r\n") = CreadOutcome.closeClient ∧
    creadHeader (bstr "*2\r\n") = CreadOutcome.parseBody 2 := by
  decide

theorem alistLookup_mapval {β γ : Type} (f : β → γ) :
    ∀ (g : List (Nat × β)) (a : Nat),
      alistLookup (g.map (fun p => (p.1, f p.2))) a = (alistLookup g a).map f := by
  intro g
  induction g with
  | nil => intro a; rfl
  | cons hd t ih =>
    intro a
    by_cases h : hd.1 = a <;> simp [alistLookup, h, ih]

theorem scanMatch_mem (v : String → String) :
    ∀ (l : List String) (k : String), k ∈ l → scanMatch l (l.map v) k = v k := by
  intro l
  induction l with
  | nil => intro k hk; cases hk
  | cons x xs ih =>
    intro k hk
    by_cases h : x = k
    · subst h; simp [scanMatch]
    · have hx : k ∈ xs := by
        cases hk with
        | head => exact absurd rfl h
        | tail _ hh => exact hh
      simp [scanMatch, h, ih k hx]

theorem frag1Groups_mem_aux (hash : String → Nat) (k : String) :
    ∀ (ks : List String) (g : List (Nat × List String)),
      ((∃ l, alistLookup g (hash k) = some l ∧ k ∈ l) ∨ k ∈ ks) →
      ∃ l, alistLookup (ks.foldl (fun g x => groupAdd g (hash x) x) g) (hash k) =
            some l ∧ k ∈ l := by
  intro ks
  induction ks with
  | nil =>
    intro g h
    rcases h with h | h
    · simpa using h
    · cases h
  | cons x xs ih =>
    intro g h
    have hnext :
        (∃ l, alistLookup (groupAdd g (hash x) x) (hash k) = some l ∧ k ∈ l) ∨
          k ∈ xs := by
      rcases h with ⟨l, hl, hkl⟩ | hmem
      · left
        by_cases hs : hash x = hash k
        · refine ⟨(alistLookup g (hash x)).getD [] ++ [x], ?_, ?_⟩
          · rw [← hs]; exact alistLookup_insert_self _ _ _
          · rw [hs, hl]
            exact List.mem_append_left _ hkl
        · refine ⟨l, ?_, hkl⟩
          rw [groupAdd, alistLookup_insert_ne _ _ _ _ (fun hh => hs hh.symm)]
          exact hl
      · cases hmem with
        | head =>
          left
          refine ⟨(alistLookup g (hash k)).getD [] ++ [k], ?_, ?_⟩
          · exact alistLookup_insert_self _ _ _
          · exact List.mem_append_right _ (by simp)
        | tail _ hh => right; exact hh
    simpa [List.foldl_cons] using ih (groupAdd g (hash x) x) hnext

theorem frag1Groups_mem (hash : String → Nat) (keys : List String)
    (k : String) (hk : k ∈ keys) :
    ∃ l, alistLookup (frag1Groups hash keys) (hash k) = some l ∧ k ∈ l :=
  frag1Groups_mem_aux hash k keys [] (Or.inr hk)

/-- C6: for a completed MGET whose per-slot reply tables record, slot
for slot, the shard-assigned bulk reply of each key of the group of that
slot (all fragments finished without error), the assembled reply is
the RESP array header carrying the exact client-supplied key count
followed by, in client-supplied key order, the bulk reply of each key —
duplicates and multi-slot splits included, since the statement
quantifies over arbitrary hash functions, key lists (with repeats) and
reply assignments. -/
theorem c6_mget_assembly (hash : String → Nat) (keys : List String)
    (v : String → String) (rsps : List (Nat × List String))
    (hrsps : rsps = (frag1Groups hash keys).map (fun p => (p.1, p.2.map v))) :
    mgetAssemble hash keys (frag1Groups hash keys) rsps =
      "*" ++ toString keys.length ++ "\r\n" ++ String.join (keys.map v) := by
  subst hrsps
  unfold mgetAssemble
  congr 1
  congr 1
  apply List.map_congr_left
  intro k hk
  rcases frag1Groups_mem hash keys k hk with ⟨l, hl, hkl⟩
  rw [alistLookup_mapval, hl]
  simp only [Option.map_some, Option.getD_some]
  exact scanMatch_mem v l k hkl

/-- Witness for `c6_mget_assembly`: three keys with a duplicate spread
over two slots (hashing by string length). -/
theorem c6_mget_assembly_witness :
    mgetAssemble String.length ["a", "bb", "a"]
        (frag1Groups String.length ["a", "bb", "a"])
        ((frag1Groups String.length ["a", "bb", "a"]).map
          (fun p => (p.1, p.2.map (fun k => k ++ "!")))) =
      "*3\r\na!bb!a!" := by
  have h := c6_mget_assembly String.length ["a", "bb", "a"]
    (fun k => k ++ "!")
    ((frag1Groups String.length ["a", "bb", "a"]).map
      (fun p => (p.1, p.2.map (fun k => k ++ "!")))) rfl
  exact h.trans (by decide)

/-- C7 counterexample: at a concrete state with one past-due, not-done
fragment and an open client, the sweep marks the fragment done with the
timeout error, sends the error line, clears the inbound buffer and
removes the index entry — but the done flag of the parent message stays
false (only its error field is set), contradicting the claim that the
parent message is marked done. -/
theorem c7_sweep_counterexample :
    (msgTimeout ⟨10, [1], [⟨1, 1, 5, false, []⟩], [⟨1, false, []⟩],
        true, [], bstr "X"⟩).msgs = [⟨1, false, timeoutErrLine⟩] ∧
    (msgTimeout ⟨10, [1], [⟨1, 1, 5, false, []⟩], [⟨1, false, []⟩],
        true, [], bstr "X"⟩).frags = [⟨1, 1, 5, true, timeoutErrLine⟩] ∧
    (msgTimeout ⟨10, [1], [⟨1, 1, 5, false, []⟩], [⟨1, false, []⟩],
        true, [], bstr "X"⟩).clientOut = [timeoutErrLine] ∧
    (msgTimeout ⟨10, [1], [⟨1, 1, 5, false, []⟩], [⟨1, false, []⟩],
        true, [], bstr "X"⟩).clientIn = [] := by
  decide

/-- C7 amended: while the minimum-deadline entry of the timeout index
is past due and not already done, the sweep removes it and fires: every
not-yet-done fragment of the parent message is marked done with the
proxy-request-timeout error, the parent message is marked with that
error while its done flag is left untouched, the error line is sent to
the owning client (here open) and the buffered client inbound bytes
are discarded. -/
theorem c7_sweep_fire (s : TOState) (f : TOFrag) (n : Nat)
    (hmin : minTimeoutFrag (treeFrags s) = some f)
    (hdone : f.done = false)
    (hdue : f.timeout ≤ s.now)
    (hopen : s.clientOpen = true) :
    msgTimeoutAux (n + 1) s = msgTimeoutAux n (fireTimeout s f) ∧
    (fireTimeout s f).tree = s.tree.erase f.id ∧
    (∀ vf ∈ (fireTimeout s f).frags, vf.msgId = f.msgId → vf.done = true) ∧
    (∀ m ∈ (fireTimeout s f).msgs, m.id = f.msgId → m.error = timeoutErrLine) ∧
    (fireTimeout s f).msgs.map TOMsg.done = s.msgs.map TOMsg.done ∧
    (fireTimeout s f).clientOut = s.clientOut ++ [timeoutErrLine] ∧
    (fireTimeout s f).clientIn = [] := by
  have hnotlt : ¬s.now < f.timeout := by omega
  refine ⟨?_, ?_, ?_, ?_, ?_, ?_, ?_⟩
  · simp only [msgTimeoutAux, hmin, hdone]
    simp [hnotlt]
  · simp [fireTimeout, hopen]
  · intro vf hvf hmsg
    simp only [fireTimeout, hopen, if_true] at hvf
    rcases List.mem_map.mp hvf with ⟨w, _, heq⟩
    by_cases hc : w.msgId = f.msgId ∧ ¬w.done = true
    · rw [← heq]; simp [hc]
    · rw [← heq] at hmsg ⊢
      rw [if_neg hc] at hmsg ⊢
      rcases Decidable.not_and_iff_or_not.mp hc with h | h
      · exact absurd hmsg h
      · revert h; cases w.done <;> simp
  · intro m hm hid
    simp only [fireTimeout, hopen, if_true] at hm
    rcases List.mem_map.mp hm with ⟨w, _, heq⟩
    by_cases hc : w.id = f.msgId
    · rw [← heq]; simp [hc]
    · rw [← heq] at hid
      rw [if_neg hc] at hid
      exact absurd hid hc
  · simp only [fireTimeout, hopen, if_true]
    rw [List.map_map]
    apply List.map_congr_left
    intro m _
    by_cases hc : m.id = f.msgId <;> simp [hc]
  · simp [fireTimeout, hopen]
  · simp [fireTimeout, hopen]

/-- Witness for `c7_sweep_fire` at the concrete one-fragment state. -/
theorem c7_sweep_fire_witness :
    msgTimeoutAux 2 ⟨10, [1], [⟨1, 1, 5, false, []⟩], [⟨1, false, []⟩],
        true, [], bstr "X"⟩ =
      msgTimeoutAux 1 (fireTimeout
        ⟨10, [1], [⟨1, 1, 5, false, []⟩], [⟨1, false, []⟩], true, [], bstr "X"⟩
        ⟨1, 1, 5, false, []⟩) ∧
    (fireTimeout
        ⟨10, [1], [⟨1, 1, 5, false, []⟩], [⟨1, false, []⟩], true, [], bstr "X"⟩
        ⟨1, 1, 5, false, []⟩).msgs.map TOMsg.done = [false] ∧
    (fireTimeout
        ⟨10, [1], [⟨1, 1, 5, false, []⟩], [⟨1, false, []⟩], true, [], bstr "X"⟩
        ⟨1, 1, 5, false, []⟩).clientOut = [timeoutErrLine] ∧
    (fireTimeout
        ⟨10, [1], [⟨1, 1, 5, false, []⟩], [⟨1, false, []⟩], true, [], bstr "X"⟩
        ⟨1, 1, 5, false, []⟩).clientIn = [] := by
  have h := c7_sweep_fire
    ⟨10, [1], [⟨1, 1, 5, false, []⟩], [⟨1, false, []⟩], true, [], bstr "X"⟩
    ⟨1, 1, 5, false, []⟩ 1 (by decide) rfl (by decide) rfl
  exact ⟨h.1, h.2.2.2.2.1.trans (by decide), h.2.2.2.2.2.1.trans (by decide),
    h.2.2.2.2.2.2⟩

/-- C8 counterexample: a probe failure (the `Pool.monitor` ban branch)
sets the lift-ban time to a fixed sixty seconds from now — not
`base * 2 ^ min(order, 5)` milliseconds (here base 1000, order 0 would
give 1000) — and two consecutive probe failures leave the order at 0,
unincremented. -/
theorem c8_ban_counterexample :
    (monitorProbeFail ⟨false, 0, 0⟩ 0).liftBanTime = 60000 ∧
    (monitorProbeFail ⟨false, 0, 0⟩ 0).liftBanTime ≠
      0 + 1000 * 2 ^ min (0 : Nat) 5 ∧
    (monitorProbeFail (monitorProbeFail ⟨false, 0, 0⟩ 0) 1000).liftBanOrder
      = 0 := by
  decide

theorem getConnFail_order (p : RPool) (now base : Int) :
    (getConnFail p now base).liftBanOrder = min (p.liftBanOrder + 1) 5 := by
  unfold getConnFail
  by_cases h : p.liftBanOrder ≥ 5 <;> simp [h] <;> omega

/-- C8 amended: request-path dial failure (`listenServer.getConn`) bans
the pool with lift-ban time `now + base * 2 ^ min(order, 5)` ms
(computed from the pre-increment order, which the state machine keeps
at most 5) and increments the order with a cap of 5, so `k` consecutive
dial failures drive the order to `min(k + order, 5)`; a probe failure
(`Pool.monitor`) bans with a fixed sixty-second lift-ban time and does
not change the order; and the order stays at most 5 under every event. -/
theorem c8_ban_dynamics :
    (∀ (p : RPool) (now base : Int), p.liftBanOrder ≤ 5 →
      getConnFail p now base =
        ⟨true, now + base * 2 ^ min p.liftBanOrder 5,
          min (p.liftBanOrder + 1) 5⟩) ∧
    (∀ (l : List (Int × Int)) (p : RPool), p.liftBanOrder ≤ 5 →
      (l.foldl (fun q nb => getConnFail q nb.1 nb.2) p).liftBanOrder =
        min (p.liftBanOrder + l.length) 5) ∧
    (∀ (p : RPool) (now : Int),
      monitorProbeFail p now =
        { p with liftBanTime := now + 60000, autoBanFlag := true }) ∧
    (∀ (evs : List PoolEvent) (p : RPool), p.liftBanOrder ≤ 5 →
      (evs.foldl poolStep p).liftBanOrder ≤ 5) := by
  refine ⟨?_, ?_, ?_, ?_⟩
  · intro p now base hle
    have hmin : min p.liftBanOrder 5 = p.liftBanOrder := by omega
    rw [hmin]
    unfold getConnFail
    by_cases h : p.liftBanOrder ≥ 5
    · have : p.liftBanOrder = 5 := by omega
      simp [h, this]
    · simp [h]
      omega
  · intro l
    induction l with
    | nil => intro p hle; simp; omega
    | cons nb t ih =>
      intro p hle
      have h1 := ih (getConnFail p nb.1 nb.2)
        (by rw [getConnFail_order]; omega)
      rw [List.foldl_cons, h1, getConnFail_order]
      simp [List.length_cons]
      omega
  · intro p now; rfl
  · intro evs
    induction evs with
    | nil => intro p hle; simpa using hle
    | cons e t ih =>
      intro p hle
      rw [List.foldl_cons]
      refine ih (poolStep p e) ?_
      cases e with
      | dialFail now base => rw [poolStep, getConnFail_order]; omega
      | dialOk => simp [poolStep, getConnSuccess]
      | probeFail now => simpa [poolStep, monitorProbeFail] using hle
      | probeOk => simp [poolStep, monitorProbeSuccess]

/-- Witness for `c8_ban_dynamics` at concrete pools. -/
theorem c8_ban_dynamics_witness :
    getConnFail ⟨false, 0, 3⟩ 100 1000 = ⟨true, 100 + 1000 * 2 ^ 3, 4⟩ ∧
    ((List.replicate 7 ((0 : Int), (1 : Int))).foldl
        (fun q nb => getConnFail q nb.1 nb.2) ⟨false, 0, 0⟩).liftBanOrder
      = 5 ∧
    monitorProbeFail ⟨false, 7, 2⟩ 40 = ⟨true, 40 + 60000, 2⟩ := by
  have h1 := c8_ban_dynamics.1 ⟨false, 0, 3⟩ 100 1000 (by decide)
  have h2 := c8_ban_dynamics.2.1 (List.replicate 7 ((0 : Int), (1 : Int)))
    ⟨false, 0, 0⟩ (by decide)
  have h3 := c8_ban_dynamics.2.2.1 ⟨false, 7, 2⟩ 40
  exact ⟨h1.trans (by decide), h2.trans (by decide), h3.trans (by decide)⟩

theorem fragKeyEq_iff (f g : TQFrag) :
    fragKeyEq f g = true ↔ f.timeout = g.timeout := by
  simp [fragKeyEq, fragLess]
  omega

theorem fragKeyEq_false_iff (f g : TQFrag) :
    fragKeyEq f g = false ↔ f.timeout ≠ g.timeout := by
  rw [← Bool.not_eq_true, fragKeyEq_iff]

theorem mem_replaceOrInsert (f x : TQFrag) :
    ∀ t : List TQFrag, x ∈ replaceOrInsert f t → x = f ∨ x ∈ t := by
  intro t
  induction t with
  | nil => intro h; simpa [replaceOrInsert] using h
  | cons g tl ih =>
    intro h
    by_cases hk : fragKeyEq f g = true
    · simp only [replaceOrInsert, if_pos hk] at h
      rcases List.mem_cons.mp h with h | h
      · exact Or.inl h
      · exact Or.inr (List.mem_cons_of_mem _ h)
    · simp only [replaceOrInsert, if_neg hk] at h
      rcases List.mem_cons.mp h with h | h
      · exact Or.inr (by rw [h]; exact List.mem_cons_self _ _)
      · rcases ih h with h | h
        · exact Or.inl h
        · exact Or.inr (List.mem_cons_of_mem _ h)

/-- C9: the timeout index identifies fragments solely by deadline.
Pushing a second, distinct fragment with the same deadline evicts the
first (the index then holds exactly the second); deleting by the key of
one fragment removes another fragment with the same deadline; and
`ReplaceOrInsert` preserves the invariant that the index never holds
two distinct items with equal deadlines. -/
theorem c9_timeout_index_key_identity :
    (∀ (f1 f2 : TQFrag) (now d : Int), 0 < d →
      f1.hasOwner = true → f1.hasPeer = true →
      f2.hasOwner = true → f2.hasPeer = true →
      pushToTimeoutQueue now d f2 (pushToTimeoutQueue now d f1 []) =
        [{ f2 with timeout := now + d }]) ∧
    (∀ f1 f2 : TQFrag, f1.timeout = f2.timeout →
      deleteByKey f1 [f2] = []) ∧
    (∀ (f : TQFrag) (t : List TQFrag), distinctDeadlines t →
      distinctDeadlines (replaceOrInsert f t)) := by
  refine ⟨?_, ?_, ?_⟩
  · intro f1 f2 now d hd h1o h1p h2o h2p
    have hnd : ¬d ≤ 0 := by omega
    simp only [pushToTimeoutQueue, if_neg hnd, h1o, h1p, h2o, h2p]
    simp [replaceOrInsert, fragKeyEq, fragLess]
  · intro f1 f2 h
    simp [deleteByKey, fragKeyEq, fragLess, h]
  · intro f t
    induction t with
    | nil => intro _; simp [replaceOrInsert, distinctDeadlines]
    | cons g tl ih =>
      intro h
      rcases (List.pairwise_cons.mp h) with ⟨hg, htl⟩
      by_cases hk : fragKeyEq f g = true
      · simp only [replaceOrInsert, if_pos hk]
        refine List.pairwise_cons.mpr ⟨?_, htl⟩
        intro x hx
        rw [fragKeyEq_false_iff]
        rw [fragKeyEq_iff] at hk
        rw [hk]
        rw [← fragKeyEq_false_iff]
        exact hg x hx
      · simp only [replaceOrInsert, if_neg hk]
        refine List.pairwise_cons.mpr ⟨?_, ih htl⟩
        intro x hx
        rcases mem_replaceOrInsert f x tl hx with h | h
        · rw [h, fragKeyEq_false_iff]
          have := (Bool.not_eq_true _).mp hk
          rw [fragKeyEq_false_iff] at this
          exact fun hh => this hh.symm
        · exact hg x h

/-- Witness for `c9_timeout_index_key_identity` at two concrete
fragments with equal deadlines. -/
theorem c9_timeout_index_key_identity_witness :
    pushToTimeoutQueue 5 100 ⟨2, 0, true, true⟩
        (pushToTimeoutQueue 5 100 ⟨1, 0, true, true⟩ []) =
      [⟨2, 105, true, true⟩] ∧
    deleteByKey ⟨1, 7, true, true⟩ [⟨2, 7, true, true⟩] = [] ∧
    distinctDeadlines (replaceOrInsert ⟨3, 1, true, true⟩
      [⟨9, 1, true, true⟩]) := by
  refine ⟨?_, ?_, ?_⟩
  · exact c9_timeout_index_key_identity.1 ⟨1, 0, true, true⟩ ⟨2, 0, true, true⟩
      5 100 (by decide) rfl rfl rfl rfl
  · exact c9_timeout_index_key_identity.2.1 ⟨1, 7, true, true⟩
      ⟨2, 7, true, true⟩ rfl
  · exact c9_timeout_index_key_identity.2.2 ⟨3, 1, true, true⟩
      [⟨9, 1, true, true⟩] (by simp [distinctDeadlines])

theorem wrap64_emod (a : Int) :
    wrap64 a % 18446744073709551616 = a % 18446744073709551616 := by
  unfold wrap64
  omega

theorem wrap64_congr {a b : Int}
    (h : a % 18446744073709551616 = b % 18446744073709551616) :
    wrap64 a = wrap64 b := by
  unfold wrap64
  omega

theorem wrap64_idem (a : Int) : wrap64 (wrap64 a) = wrap64 a :=
  wrap64_congr (wrap64_emod a)

theorem digitsVal_congr (p : Bytes) :
    ∀ a b : Int, a % 18446744073709551616 = b % 18446744073709551616 →
      digitsVal a p % 18446744073709551616 =
        digitsVal b p % 18446744073709551616 := by
  induction p with
  | nil => intro a b h; simpa [digitsVal] using h
  | cons c q ih =>
    intro a b h
    simp only [digitsVal]
    exact ih _ _ (by omega)

theorem parseLenLoop_digits (p : Bytes) :
    ∀ n : Int, (∀ b ∈ p, isDigitByte b = true) → wrap64 n = n →
      parseLenLoop n p = (wrap64 (digitsVal n p), none) := by
  induction p with
  | nil =>
    intro n _ hw
    simp [parseLenLoop, digitsVal, hw]
  | cons b q ih =>
    intro n hdig hw
    have hb : isDigitByte b = true := hdig b (List.mem_cons_self _ _)
    have hnd : ¬(b < '0' ∨ '9' < b) := by
      simp only [isDigitByte, Bool.not_or, Bool.and_eq_true,
        Bool.not_eq_true', decide_eq_false_iff_not] at hb
      exact fun h => h.elim hb.1 hb.2
    simp only [parseLenLoop, if_neg hnd]
    have hrec := ih (wrap64 (wrap64 (n * 10) + ((b.toNat : Int) - 48)))
      (fun x hx => hdig x (List.mem_cons_of_mem _ hx)) (wrap64_idem _)
    rw [hrec]
    have hmod : wrap64 (wrap64 (n * 10) + ((b.toNat : Int) - 48))
        % 18446744073709551616 =
        (n * 10 + ((b.toNat : Int) - 48)) % 18446744073709551616 := by
      have h1 := wrap64_emod (wrap64 (n * 10) + ((b.toNat : Int) - 48))
      have h2 := wrap64_emod (n * 10)
      omega
    rw [wrap64_congr (digitsVal_congr q _ _ hmod)]
    simp [digitsVal]

set_option maxRecDepth 100000 in
/-- C10 counterexample: the example named by the claim, twenty digit-9
bytes, does not produce a negative length — the wrapped value is the
positive 7766279631452241919 (with a nil error), so the parenthetical
example of the claim is wrong (nineteen nines do wrap negative, see the
amended theorem). -/
theorem c10_twenty_nines_positive :
    parseLen (List.replicate 20 '9') = (7766279631452241919, none) ∧
    0 ≤ (parseLen (List.replicate 20 '9')).1 := by
  constructor
  · rfl
  · decide

set_option maxRecDepth 100000 in
/-- C10 amended: the numeric length parser accepts every non-empty
all-digit byte string with no overflow guard, returning the 64-bit
machine-wrapped value of its decimal digits together with a nil error;
in particular nineteen digit-9 bytes wrap to the negative
-8446744073709551617, and the dollar branch of the shard codec then
classifies the frame as a nil bulk (consuming only the header line,
cursor at byte 22) instead of rejecting it. -/
theorem c10_wrapped_length :
    (∀ p : Bytes, p ≠ [] → (∀ b ∈ p, isDigitByte b = true) →
      parseLen p = (wrap64 (digitsVal 0 p), none)) ∧
    parseLen (List.replicate 19 '9') = (-8446744073709551617, none) ∧
    (parseLen (List.replicate 19 '9')).1 < 0 ∧
    (readReply (bstr "$9999999999999999999\r\n")).1 =
      (Command.RspBulk, none) ∧
    (readReply (bstr "$9999999999999999999\r\n")).2.r = 22 := by
  refine ⟨?_, by rfl, by decide, by rfl, by rfl⟩
  intro p hne hdig
  have hlen : ¬p.length < 1 := by
    cases p with
    | nil => exact absurd rfl hne
    | cons b q => simp
  have hnot : p ≠ ['-', '1'] := by
    intro h
    have := hdig '-' (by rw [h]; exact List.mem_cons_self _ _)
    simp [isDigitByte] at this
  rw [parseLen, if_neg hlen, if_neg hnot]
  exact parseLenLoop_digits p 0 hdig (by decide)

/-- Witness for `c10_wrapped_length` on a small all-digit input. -/
theorem c10_wrapped_length_witness :
    parseLen (bstr "12") = (wrap64 (digitsVal 0 (bstr "12")), none) :=
  c10_wrapped_length.1 (bstr "12") (by decide) (by decide)
